import Mathlib

/-!
Shallow embedding of the PDF-to-Word conversion service in `api.py`.

The service keeps an in-memory dict `conversions` mapping a conversion id to a
record with keys `id`, `status`, `message`, `url`, `filename`,
`original_filename`.  A background worker (`process_conversion`) drives each
job from `pending` through `processing` to `completed` or `error`, invoking
the browser-automation engine (`ILovePDFConverter.convert`) and, in a
`finally` block, removing the uploaded input file.  HTTP endpoints
(`convert_pdf`, `get_status`, `download_file`, `delete_conversion`) read and
mutate the dict.

Modelling conventions:
* the `conversions` dict is an association list with string keys;
* the upload area (`uploads/{id}.pdf`, one file per id) is the list of ids
  whose input file exists; the output area is the list of artifact filenames
  present on disk;
* the engine call's outcome is a `WorkerOutcome`: the value returned by
  `ILovePDFConverter.convert` (an optional filename) or an exception escaping
  it, carrying the exception's text (`str(e)`);
* Python truthiness on strings (`if filename:`) is modelled by explicit
  comparison with the empty string;
* `HTTPException` is the `ApiError` type, tagged by status code class.
-/

/-- `s.endswith(suffix)`, computed on the underlying character lists so the
kernel can evaluate it (core `String.endsWith` is not kernel-reducible). -/
def strEndsWith (s suffix : String) : Bool :=
  List.isSuffixOf suffix.data s.data

/-- `s.lower()`, computed on the underlying character list. -/
def lowerStr (s : String) : String :=
  String.mk (s.data.map Char.toLower)

/-- The four status strings stored in `conversions[id]["status"]`. -/
inductive Status : Type
| pending
| processing
| completed
| error
deriving DecidableEq, Repr

/-- The string the code would interpolate for a status (used in the 400
detail message of `download_file`). -/
def statusText : Status → String
| Status.pending => "pending"
| Status.processing => "processing"
| Status.completed => "completed"
| Status.error => "error"

/-- One entry of the `conversions` dict (keys set at `convert_pdf`
lines 302-309 and mutated by `process_conversion`). -/
structure JobRec : Type where
  id : String
  status : Status
  message : Option String
  url : Option String
  filename : Option String
  original_filename : String
deriving DecidableEq, Repr

/-- The pydantic response model `ConversionStatus`. -/
structure ConversionStatus : Type where
  id : String
  status : Status
  message : Option String
  url : Option String
  filename : Option String
deriving DecidableEq, Repr

/-- `HTTPException`s raised by the endpoints, tagged by status code class:
400 (client/validation error), 404 (not found), 500 (server error). -/
inductive ApiError : Type
| badRequest (detail : String)
| notFound (detail : String)
| serverError (detail : String)
deriving DecidableEq, Repr

/-- Progress of the one background thread spawned for a job id:
not yet entered `process_conversion`, inside it before the engine call
returned, or finished (normally or by a crash). -/
inductive Phase : Type
| spawned
| running
| done
deriving DecidableEq, Repr

/-- Outcome of the engine call as seen by `process_conversion`:
`ILovePDFConverter.convert` returned an optional filename, or an exception
escaped it (the string is `str(e)`). -/
inductive WorkerOutcome : Type
| returned (r : Option String)
| raised (msg : String)
deriving DecidableEq, Repr

/-- Association-list lookup with string keys (Python dict read). -/
def alookup {α : Type} : List (String × α) → String → Option α
| [], _ => none
| (k', v) :: t, k => if k' = k then some v else alookup t k

/-- Update the value at a key, if present (Python dict item mutation). -/
def aupdate {α : Type} : List (String × α) → String → (α → α) → List (String × α)
| [], _, _ => []
| (k', v) :: t, k, f => if k' = k then (k', f v) :: t else (k', v) :: aupdate t k f

/-- Remove a key (Python `del d[k]`). -/
def aerase {α : Type} (l : List (String × α)) (k : String) : List (String × α) :=
  l.filter (fun p => !(p.1 == k))

/-- The keys of an association list are pairwise distinct (true of a dict). -/
def keysNodup {α : Type} (l : List (String × α)) : Prop :=
  (l.map Prod.fst).Nodup

/-- The whole mutable state of the process: the `conversions` dict, the two
file areas, and the per-id worker phase. -/
structure SysState : Type where
  registry : List (String × JobRec)
  uploads : List String
  outputs : List String
  workers : List (String × Phase)
deriving DecidableEq, Repr

/-- Fresh process state: empty dict, empty file areas, no threads. -/
def initState : SysState := ⟨[], [], [], []⟩

/-- The record `convert_pdf` stores for a new id (lines 302-309). -/
def mkPendingRec (id fn : String) : JobRec :=
  ⟨id, Status.pending, some "Aguardando processamento...", none, none, fn⟩

/-- The `ConversionStatus` body returned by `convert_pdf` (lines 318-322);
the braces in the message are literal in the source string. -/
def pendingResponse (id : String) : ConversionStatus :=
  ⟨id, Status.pending, some "Conversão iniciada. Use /status/\x7bid\x7d para acompanhar.", none, none⟩

/-- `POST /convert` (lines 277-322): validates the extension on the lowercased
filename, writes the upload to `uploads/{id}.pdf`, stores the pending record
and spawns the worker thread.  The generated uuid is passed in as `id`.
There is no duplicate-id check: the dict assignment overwrites.  On the
validation error the function raises before any state is touched, which the
embedding renders by returning no new state. -/
def convert_pdf (fn : String) (id : String) (s : SysState) :
    Except ApiError (ConversionStatus × SysState) :=
  if strEndsWith (lowerStr fn) ".pdf" then
    Except.ok (pendingResponse id,
      { s with
          registry := (id, mkPendingRec id fn) :: s.registry
          uploads := s.uploads.insert id
          workers := (id, Phase.spawned) :: s.workers })
  else
    Except.error (ApiError.badRequest "O arquivo deve ser um PDF")

/-- `GET /status/{id}` (lines 325-347). -/
def get_status (id : String) (s : SysState) : Except ApiError ConversionStatus :=
  match alookup s.registry id with
  | none => Except.error (ApiError.notFound "Conversão não encontrada")
  | some conv => Except.ok ⟨conv.id, conv.status, conv.message, conv.url, conv.filename⟩

/-- Drop everything from the last `.` on; the whole string if it has no `.`
(Python `s.rsplit('.', 1)[0]`). -/
def beforeLastDot : List Char → Option (List Char)
| [] => none
| c :: t =>
  match beforeLastDot t with
  | some r => some (c :: r)
  | none => if c = '.' then some [] else none

/-- Download name derivation of `download_file` line 377. -/
def downloadName (original : String) : String :=
  (match beforeLastDot original.data with
   | some r => String.mk r
   | none => original) ++ ".docx"

/-- Payload of the `FileResponse` built by `download_file`. -/
structure FileResponseData : Type where
  path : String
  filename : String
  media_type : String
deriving DecidableEq, Repr

/-- `GET /download/{id}` (lines 350-383): 404 for unknown ids, 400 when the
job is not `completed`, 404 when no filename is recorded (Python truthiness:
`None` or the empty string) or the artifact file is gone from the output
area; otherwise the file response. -/
def download_file (id : String) (s : SysState) : Except ApiError FileResponseData :=
  match alookup s.registry id with
  | none => Except.error (ApiError.notFound "Conversão não encontrada")
  | some conv =>
    if conv.status = Status.completed then
      match conv.filename with
      | none => Except.error (ApiError.notFound "Arquivo não encontrado")
      | some f =>
        if f = "" then Except.error (ApiError.notFound "Arquivo não encontrado")
        else if f ∈ s.outputs then
          Except.ok ⟨"outputs/" ++ f, downloadName conv.original_filename,
            "application/vnd.openxmlformats-officedocument.wordprocessingml.document"⟩
        else Except.error (ApiError.notFound "Arquivo não encontrado no servidor")
    else
      Except.error (ApiError.badRequest
        ("Conversão não concluída. Status: " ++ statusText conv.status))

/-- Lines 401-405: remove the recorded artifact file from the output area
when the `filename` field is truthy. -/
def removeArtifact (conv : JobRec) (outs : List String) : List String :=
  match conv.filename with
  | some f => if f = "" then outs else outs.erase f
  | none => outs

/-- `DELETE /conversion/{id}` (lines 392-410): 404 for unknown ids; otherwise
best-effort removal of the recorded artifact file (only when the `filename`
field is truthy) and deletion of the dict entry. -/
def delete_conversion (id : String) (s : SysState) :
    Except ApiError (String × SysState) :=
  match alookup s.registry id with
  | none => Except.error (ApiError.notFound "Conversão não encontrada")
  | some conv =>
    Except.ok ("Conversão removida",
      { s with registry := aerase s.registry id,
               outputs := removeArtifact conv s.outputs })

/-- The record update of `process_conversion` lines 229-230. -/
def startedRec (c : JobRec) : JobRec :=
  { c with status := Status.processing,
           message := some "Convertendo PDF para Word..." }

/-- The first half of `process_conversion` (lines 228-230): mark the job
`processing`.  When the id is no longer in the dict (the job was deleted),
the assignment raises `KeyError`, the `except` arm's own assignment raises
again, and the `finally` still removes the input file before the thread
dies; the embedding renders that crash path directly. -/
def applyWorkerStart (id : String) (s : SysState) : SysState :=
  match alookup s.registry id with
  | some _ =>
    { s with
        registry := aupdate s.registry id startedRec
        workers := aupdate s.workers id (fun _ => Phase.running) }
  | none =>
    { s with
        uploads := s.uploads.erase id
        workers := aupdate s.workers id (fun _ => Phase.done) }

/-- The record update performed by the second half of `process_conversion`
(lines 239-252), keyed on the engine call's outcome; `if filename:` treats
`None` and the empty string alike. -/
def finishedRec (id : String) (outcome : WorkerOutcome) (c : JobRec) : JobRec :=
  match outcome with
  | WorkerOutcome.returned (some f) =>
    if f = "" then
      { c with status := Status.error, message := some "Falha na conversão" }
    else
      { c with status := Status.completed, message := some "Conversão concluída!",
               filename := some f, url := some ("/download/" ++ id) }
  | WorkerOutcome.returned none =>
    { c with status := Status.error, message := some "Falha na conversão" }
  | WorkerOutcome.raised m =>
    { c with status := Status.error, message := some m }

/-- Effect of the engine call on the output area: a successful download has
placed the artifact file there. -/
def engineOutputs (outs : List String) : WorkerOutcome → List String
| WorkerOutcome.returned (some f) => if f = "" then outs else outs.insert f
| _ => outs

/-- The second half of `process_conversion` (lines 239-259): record the
outcome and, in the `finally` block, remove the uploaded input file.  As in
`applyWorkerStart`, a deleted id makes both dict assignments raise; the
`finally` still removes the file. -/
def applyWorkerFinish (id : String) (outcome : WorkerOutcome) (s : SysState) : SysState :=
  match alookup s.registry id with
  | some _ =>
    { s with
        registry := aupdate s.registry id (finishedRec id outcome)
        outputs := engineOutputs s.outputs outcome
        uploads := s.uploads.erase id
        workers := aupdate s.workers id (fun _ => Phase.done) }
  | none =>
    { s with
        outputs := engineOutputs s.outputs outcome
        uploads := s.uploads.erase id
        workers := aupdate s.workers id (fun _ => Phase.done) }

/-- The whole worker body `process_conversion(conversion_id, pdf_path)`,
run to completion with the given engine outcome. -/
def process_conversion (id : String) (outcome : WorkerOutcome) (s : SysState) : SysState :=
  applyWorkerFinish id outcome (applyWorkerStart id s)

/-- State-changing events of the running service: a submission (with its
generated id), the two halves of a worker's execution, and a deletion
request.  The read-only endpoints do not change state. -/
inductive Act : Type
| submit (id fn : String)
| workerStart (id : String)
| workerFinish (id : String) (outcome : WorkerOutcome)
| deleteJob (id : String)
deriving DecidableEq, Repr

/-- When an event can fire: uuid4 generation makes submitted ids fresh
(never previously used, hence absent from `workers`); each spawned thread
enters `process_conversion` once and its engine call returns once; deletion
requires the id to be present (otherwise the endpoint 404s without state
change). -/
def enabled (s : SysState) : Act → Prop
| Act.submit id fn =>
    alookup s.workers id = none ∧ strEndsWith (lowerStr fn) ".pdf" = true
| Act.workerStart id => alookup s.workers id = some Phase.spawned
| Act.workerFinish id _ => alookup s.workers id = some Phase.running
| Act.deleteJob id => (alookup s.registry id).isSome = true

instance decEnabled (s : SysState) (a : Act) : Decidable (enabled s a) :=
  match a with
  | Act.submit _ _ => inferInstanceAs (Decidable (_ ∧ _))
  | Act.workerStart _ => inferInstanceAs (Decidable (_ = _))
  | Act.workerFinish _ _ => inferInstanceAs (Decidable (_ = _))
  | Act.deleteJob _ => inferInstanceAs (Decidable (_ = _))

/-- State transition function of the service. -/
def applyAct (s : SysState) : Act → SysState
| Act.submit id fn =>
  match convert_pdf fn id s with
  | Except.ok (_, s') => s'
  | Except.error _ => s
| Act.workerStart id => applyWorkerStart id s
| Act.workerFinish id outcome => applyWorkerFinish id outcome s
| Act.deleteJob id =>
  match delete_conversion id s with
  | Except.ok (_, s') => s'
  | Except.error _ => s

/-- A run of the service: a list of enabled events applied in order. -/
inductive Run : SysState → List Act → SysState → Prop
| nil (s : SysState) : Run s [] s
| cons {s s' : SysState} {a : Act} {as : List Act}
    (ha : enabled s a) (h : Run (applyAct s a) as s') : Run s (a :: as) s'

/-- States the service can be in, starting from an empty process. -/
def Reachable (s : SysState) : Prop := ∃ as, Run initState as s

/-- Whether executing `a` in state `s` runs the input-file removal of
`process_conversion`'s `finally` block for the job `id`: every finishing
step does, and so does the crash of a worker whose job was deleted before it
started. -/
def removesInput (s : SysState) (a : Act) (id : String) : Bool :=
  match a with
  | Act.workerFinish i _ => i == id
  | Act.workerStart i => i == id && (alookup s.registry i).isNone
  | _ => false

/-- Number of times the input-file removal for `id` runs along a list of
events executed from `s`. -/
def removalCount (s : SysState) (acts : List Act) (id : String) : Nat :=
  match acts with
  | [] => 0
  | a :: rest =>
    (if removesInput s a id then 1 else 0) + removalCount (applyAct s a) rest id

/-- 1 when the worker for `id` has finished, 0 otherwise. -/
def doneScore (s : SysState) (id : String) : Nat :=
  if alookup s.workers id = some Phase.done then 1 else 0

/-! ## The artifact-locating scan (`ILovePDFConverter._wait_for_download`) -/

/-- Python's stable descending sort by mtime followed by `[0]`: the first
listed file among those with maximal mtime. -/
def pickLatest (h : String × Nat) (t : List (String × Nat)) : String × Nat :=
  t.foldl (fun best f => if best.2 < f.2 then f else best) h

/-- Lines 128-136: the most recently modified `.docx` file of a directory
listing (filenames with mtimes), or none. -/
def latestDocx (files : List (String × Nat)) : Option String :=
  match files.filter (fun f => strEndsWith f.1 ".docx") with
  | [] => none
  | h :: t => some (pickLatest h t).1

/-- Line 125: a `.crdownload` file marks a download still in progress. -/
def hasCrdownload (files : List (String × Nat)) : Bool :=
  files.any (fun f => strEndsWith f.1 ".crdownload")

/-- One iteration of the polling loop of `_wait_for_download`: skip while a
download is in progress, otherwise return the most recent `.docx` if any. -/
def scanStep (files : List (String × Nat)) : Option String :=
  if hasCrdownload files then none else latestDocx files

/-- `_wait_for_download` (lines 117-140) over the sequence of directory
listings observed in successive polls of the loop; the list running out is
the timeout. -/
def wait_for_download : List (List (String × Nat)) → Option String
| [] => none
| snap :: rest =>
  match scanStep snap with
  | some f => some f
  | none => wait_for_download rest

/-! ## Derived predicates and concrete states used in the verification -/

/-- The engine outcomes `process_conversion` treats as failures: `convert`
returned `None` (engine failure or timeout), returned a falsy string, or
raised. -/
def isFailure : WorkerOutcome → Bool
| WorkerOutcome.returned none => true
| WorkerOutcome.returned (some f) => f == ""
| WorkerOutcome.raised _ => true

/-- The message `process_conversion` stores for a failing outcome: the fixed
text for an engine failure, the exception's own text (`str(e)`) for an
exception. -/
def failureMessage : WorkerOutcome → String
| WorkerOutcome.raised m => m
| _ => "Falha na conversão"

/-- The artifact of a job is retrievable: a truthy `filename` is recorded
and that file exists in the output area. -/
def artifactPresent (conv : JobRec) (s : SysState) : Prop :=
  ∃ f, conv.filename = some f ∧ f ≠ "" ∧ f ∈ s.outputs

/-- The property claimed of the artifact-locating operation: it returns only
files whose modification time is at or after the reference timestamp `ref`.
The code's `_wait_for_download` takes no reference timestamp, so this is
formalised over its actual signature. -/
def locateOnlyAfter (ref : Nat) : Prop :=
  ∀ (snaps : List (List (String × Nat))) (f : String),
    wait_for_download snaps = some f →
    ∀ snap ∈ snaps, ∀ m : Nat, (f, m) ∈ snap → ref ≤ m

/-- A three-event history: submit job `a`, start its worker, finish it with
the engine downloading `out.docx`. -/
def acts3 : List Act :=
  [Act.submit "a" "a.pdf", Act.workerStart "a",
   Act.workerFinish "a" (WorkerOutcome.returned (some "out.docx"))]

/-- The state reached by `acts3`. -/
def s3 : SysState :=
  applyAct (applyAct (applyAct initState (Act.submit "a" "a.pdf"))
    (Act.workerStart "a"))
    (Act.workerFinish "a" (WorkerOutcome.returned (some "out.docx")))

/-- The completed record of job `a` in `s3`. -/
def recA : JobRec :=
  ⟨"a", Status.completed, some "Conversão concluída!", some "/download/a",
    some "out.docx", "a.pdf"⟩

/-- A registry holding only the completed job `a` with its artifact on disk. -/
def completedState : SysState :=
  ⟨[("a", recA)], [], ["out.docx"], [("a", Phase.done)]⟩

/-- A processing job `p` and a completed job `c` whose artifact file has
been removed from the output area. -/
def recP : JobRec :=
  ⟨"p", Status.processing, some "Convertendo PDF para Word...", none, none, "x.pdf"⟩

def recC : JobRec :=
  ⟨"c", Status.completed, some "Conversão concluída!", some "/download/c",
    some "gone.docx", "y.pdf"⟩

def stC5 : SysState :=
  ⟨[("p", recP), ("c", recC)], ["p"], [],
   [("p", Phase.running), ("c", Phase.done)]⟩

/-- A freshly submitted job `a` whose worker has not yet started. -/
def stPending : SysState :=
  ⟨[("a", mkPendingRec "a" "a.pdf")], ["a"], [], [("a", Phase.spawned)]⟩


/-! ## Association-list lemmas -/

theorem alookup_cons_self {α : Type} (k : String) (v : α) (l : List (String × α)) :
    alookup ((k, v) :: l) k = some v := by
  simp [alookup]

theorem alookup_cons_ne {α : Type} {k k' : String} (h : k' ≠ k) (v : α)
    (l : List (String × α)) : alookup ((k', v) :: l) k = alookup l k := by
  simp [alookup, h]

theorem alookup_aupdate_self {α : Type} (l : List (String × α)) (k : String)
    (f : α → α) : alookup (aupdate l k f) k = (alookup l k).map f := by
  induction l with
  | nil => simp [alookup, aupdate]
  | cons p t ih =>
    obtain ⟨k', v⟩ := p
    by_cases hk : k' = k
    · subst hk
      simp [alookup, aupdate]
    · simp [alookup, aupdate, hk, ih]

theorem alookup_aupdate_ne {α : Type} {k k2 : String} (h : k2 ≠ k)
    (l : List (String × α)) (f : α → α) :
    alookup (aupdate l k f) k2 = alookup l k2 := by
  have h2 : ¬ k = k2 := fun he => h he.symm
  induction l with
  | nil => simp [alookup, aupdate]
  | cons p t ih =>
    obtain ⟨k', v⟩ := p
    by_cases hk : k' = k
    · simp [alookup, aupdate, hk, h2]
    · by_cases hk2 : k' = k2
      · simp [alookup, aupdate, hk, hk2, h]
      · simp [alookup, aupdate, hk, hk2, ih]

theorem alookup_aerase_self {α : Type} (l : List (String × α)) (k : String) :
    alookup (aerase l k) k = none := by
  induction l with
  | nil => simp [alookup, aerase]
  | cons p t ih =>
    obtain ⟨k', v⟩ := p
    by_cases hk : k' = k
    · simpa [aerase, List.filter_cons, hk] using ih
    · simpa [aerase, List.filter_cons, alookup, hk] using ih

theorem alookup_aerase_ne {α : Type} {k k2 : String} (h : k2 ≠ k)
    (l : List (String × α)) : alookup (aerase l k) k2 = alookup l k2 := by
  have h2 : ¬ k = k2 := fun he => h he.symm
  induction l with
  | nil => simp [alookup, aerase]
  | cons p t ih =>
    obtain ⟨k', v⟩ := p
    by_cases hk : k' = k
    · simpa [aerase, List.filter_cons, alookup, hk, h2] using ih
    · by_cases hk2 : k' = k2
      · simp [aerase, List.filter_cons, alookup, hk, hk2, h]
      · simpa [aerase, List.filter_cons, alookup, hk, hk2] using ih

theorem keys_aupdate {α : Type} (l : List (String × α)) (k : String) (f : α → α) :
    (aupdate l k f).map Prod.fst = l.map Prod.fst := by
  induction l with
  | nil => simp [aupdate]
  | cons p t ih =>
    obtain ⟨k', v⟩ := p
    by_cases hk : k' = k
    · simp [aupdate, hk]
    · simp [aupdate, hk, ih]

theorem alookup_eq_none_iff {α : Type} (l : List (String × α)) (k : String) :
    alookup l k = none ↔ k ∉ l.map Prod.fst := by
  induction l with
  | nil => simp [alookup]
  | cons p t ih =>
    obtain ⟨k', v⟩ := p
    by_cases hk : k' = k
    · subst hk
      simp [alookup]
    · have hk2 : ¬ k = k' := fun he => hk he.symm
      simp only [alookup, hk, if_false, List.map_cons, List.mem_cons, ih]
      tauto

theorem keysNodup_aerase {α : Type} {l : List (String × α)} (h : keysNodup l)
    (k : String) : keysNodup (aerase l k) := by
  unfold keysNodup at h ⊢
  exact ((List.filter_sublist l).map Prod.fst).nodup h

theorem keysNodup_aupdate {α : Type} {l : List (String × α)} (h : keysNodup l)
    (k : String) (f : α → α) : keysNodup (aupdate l k f) := by
  unfold keysNodup
  rw [keys_aupdate]
  exact h

theorem keysNodup_cons {α : Type} {l : List (String × α)} {k : String}
    (hl : keysNodup l) (hk : alookup l k = none) (v : α) :
    keysNodup ((k, v) :: l) := by
  unfold keysNodup
  simp only [List.map_cons, List.nodup_cons]
  exact ⟨(alookup_eq_none_iff l k).mp hk, hl⟩

theorem alookup_isSome_mem {α : Type} {l : List (String × α)} {k : String}
    (h : (alookup l k).isSome = true) : k ∈ l.map Prod.fst := by
  by_contra hmem
  rw [← alookup_eq_none_iff] at hmem
  rw [hmem] at h
  simp at h

/-! ## Rewrite lemmas for the transition function -/

theorem applyAct_submit {s : SysState} {id fn : String}
    (h : strEndsWith (lowerStr fn) ".pdf" = true) :
    applyAct s (Act.submit id fn) =
      { s with registry := (id, mkPendingRec id fn) :: s.registry,
               uploads := s.uploads.insert id,
               workers := (id, Phase.spawned) :: s.workers } := by
  simp [applyAct, convert_pdf, h]

theorem applyAct_workerStart (s : SysState) (id : String) :
    applyAct s (Act.workerStart id) = applyWorkerStart id s := rfl

theorem applyAct_workerFinish (s : SysState) (id : String) (o : WorkerOutcome) :
    applyAct s (Act.workerFinish id o) = applyWorkerFinish id o s := rfl

theorem applyWorkerStart_present {s : SysState} {id : String} {c : JobRec}
    (h : alookup s.registry id = some c) :
    applyWorkerStart id s =
      { s with registry := aupdate s.registry id startedRec,
               workers := aupdate s.workers id (fun _ => Phase.running) } := by
  simp [applyWorkerStart, h]

theorem applyWorkerStart_absent {s : SysState} {id : String}
    (h : alookup s.registry id = none) :
    applyWorkerStart id s =
      { s with uploads := s.uploads.erase id,
               workers := aupdate s.workers id (fun _ => Phase.done) } := by
  simp [applyWorkerStart, h]

theorem applyWorkerFinish_present {s : SysState} {id : String} {c : JobRec}
    {o : WorkerOutcome} (h : alookup s.registry id = some c) :
    applyWorkerFinish id o s =
      { s with registry := aupdate s.registry id (finishedRec id o),
               outputs := engineOutputs s.outputs o,
               uploads := s.uploads.erase id,
               workers := aupdate s.workers id (fun _ => Phase.done) } := by
  simp [applyWorkerFinish, h]

theorem applyWorkerFinish_absent {s : SysState} {id : String} {o : WorkerOutcome}
    (h : alookup s.registry id = none) :
    applyWorkerFinish id o s =
      { s with outputs := engineOutputs s.outputs o,
               uploads := s.uploads.erase id,
               workers := aupdate s.workers id (fun _ => Phase.done) } := by
  simp [applyWorkerFinish, h]

theorem applyAct_delete_present {s : SysState} {id : String} {c : JobRec}
    (h : alookup s.registry id = some c) :
    applyAct s (Act.deleteJob id) =
      { s with registry := aerase s.registry id,
               outputs := removeArtifact c s.outputs } := by
  simp [applyAct, delete_conversion, h]

theorem applyAct_delete_absent {s : SysState} {id : String}
    (h : alookup s.registry id = none) :
    applyAct s (Act.deleteJob id) = s := by
  simp [applyAct, delete_conversion, h]

/-! ## Facts about the worker's record updates -/

theorem finishedRec_status_terminal (id : String) (o : WorkerOutcome) (c : JobRec) :
    (finishedRec id o c).status = Status.completed ∨
    (finishedRec id o c).status = Status.error := by
  rcases o with r | m
  · rcases r with _ | f
    · right; rfl
    · by_cases hf : f = ""
      · right; simp [finishedRec, hf]
      · left; simp [finishedRec, hf]
  · right; rfl

theorem finishedRec_completed_artifact {id : String} {o : WorkerOutcome} {c : JobRec}
    (h : (finishedRec id o c).status = Status.completed) :
    ∃ f, (finishedRec id o c).filename = some f ∧ f ≠ "" := by
  rcases o with r | m
  · rcases r with _ | f
    · simp [finishedRec] at h
    · by_cases hf : f = ""
      · simp [finishedRec, hf] at h
      · exact ⟨f, by simp [finishedRec, hf], hf⟩
  · simp [finishedRec] at h

theorem finishedRec_not_completed_filename {id : String} {o : WorkerOutcome}
    {c : JobRec} (h : (finishedRec id o c).status ≠ Status.completed) :
    (finishedRec id o c).filename = c.filename := by
  rcases o with r | m
  · rcases r with _ | f
    · simp [finishedRec]
    · by_cases hf : f = ""
      · simp [finishedRec, hf]
      · exact absurd (by simp [finishedRec, hf]) h
  · simp [finishedRec]

/-! ## Reachable-state invariant -/

/-- Invariant of every reachable state: dict keys are unique, each job has a
worker whose phase mirrors the job's status, the `filename` field is a
non-empty artifact name exactly on `completed` jobs, and an input file only
exists while its worker has not finished. -/
structure SysInv (s : SysState) : Prop where
  regNodup : keysNodup s.registry
  upNodup : s.uploads.Nodup
  regWorker : ∀ id : String, (alookup s.registry id).isSome = true →
    (alookup s.workers id).isSome = true
  phasePending : ∀ id c, alookup s.registry id = some c →
    c.status = Status.pending → alookup s.workers id = some Phase.spawned
  phaseProcessing : ∀ id c, alookup s.registry id = some c →
    c.status = Status.processing → alookup s.workers id = some Phase.running
  phaseTerminal : ∀ id c, alookup s.registry id = some c →
    (c.status = Status.completed ∨ c.status = Status.error) →
    alookup s.workers id = some Phase.done
  artifactSome : ∀ id c, alookup s.registry id = some c →
    c.status = Status.completed → ∃ f, c.filename = some f ∧ f ≠ ""
  artifactNone : ∀ id c, alookup s.registry id = some c →
    c.status ≠ Status.completed → c.filename = none
  uploadLive : ∀ id, id ∈ s.uploads →
    alookup s.workers id = some Phase.spawned ∨
    alookup s.workers id = some Phase.running

theorem status_of_spawned {s : SysState} {id : String} {c : JobRec} (inv : SysInv s)
    (hc : alookup s.registry id = some c)
    (hw : alookup s.workers id = some Phase.spawned) :
    c.status = Status.pending := by
  cases hst : c.status with
  | pending => rfl
  | processing =>
    have h2 := inv.phaseProcessing id c hc hst
    rw [h2] at hw
    simp at hw
  | completed =>
    have h2 := inv.phaseTerminal id c hc (Or.inl hst)
    rw [h2] at hw
    simp at hw
  | error =>
    have h2 := inv.phaseTerminal id c hc (Or.inr hst)
    rw [h2] at hw
    simp at hw

theorem status_of_running {s : SysState} {id : String} {c : JobRec} (inv : SysInv s)
    (hc : alookup s.registry id = some c)
    (hw : alookup s.workers id = some Phase.running) :
    c.status = Status.processing := by
  cases hst : c.status with
  | processing => rfl
  | pending =>
    have h2 := inv.phasePending id c hc hst
    rw [h2] at hw
    simp at hw
  | completed =>
    have h2 := inv.phaseTerminal id c hc (Or.inl hst)
    rw [h2] at hw
    simp at hw
  | error =>
    have h2 := inv.phaseTerminal id c hc (Or.inr hst)
    rw [h2] at hw
    simp at hw

/-! ## Invariant preservation -/

theorem inv_submit {s : SysState} {id fn : String} (inv : SysInv s)
    (hen : enabled s (Act.submit id fn)) :
    SysInv (applyAct s (Act.submit id fn)) := by
  obtain ⟨hw, hext⟩ := hen
  have hreg : alookup s.registry id = none := by
    cases hr : alookup s.registry id with
    | none => rfl
    | some c =>
      have h2 := inv.regWorker id (by rw [hr]; rfl)
      rw [hw] at h2
      simp at h2
  rw [applyAct_submit hext]
  constructor
  case regNodup => exact keysNodup_cons inv.regNodup hreg _
  case upNodup => exact inv.upNodup.insert
  case regWorker =>
    intro id2 h2
    by_cases he : id = id2
    · subst he
      rw [alookup_cons_self]
      rfl
    · rw [alookup_cons_ne he] at h2
      rw [alookup_cons_ne he]
      exact inv.regWorker id2 h2
  case phasePending =>
    intro id2 c hc hst
    by_cases he : id = id2
    · subst he
      rw [alookup_cons_self]
    · rw [alookup_cons_ne he] at hc
      rw [alookup_cons_ne he]
      exact inv.phasePending id2 c hc hst
  case phaseProcessing =>
    intro id2 c hc hst
    by_cases he : id = id2
    · subst he
      rw [alookup_cons_self] at hc
      cases hc
      simp [mkPendingRec] at hst
    · rw [alookup_cons_ne he] at hc
      rw [alookup_cons_ne he]
      exact inv.phaseProcessing id2 c hc hst
  case phaseTerminal =>
    intro id2 c hc hst
    by_cases he : id = id2
    · subst he
      rw [alookup_cons_self] at hc
      cases hc
      simp [mkPendingRec] at hst
    · rw [alookup_cons_ne he] at hc
      rw [alookup_cons_ne he]
      exact inv.phaseTerminal id2 c hc hst
  case artifactSome =>
    intro id2 c hc hst
    by_cases he : id = id2
    · subst he
      rw [alookup_cons_self] at hc
      cases hc
      simp [mkPendingRec] at hst
    · rw [alookup_cons_ne he] at hc
      exact inv.artifactSome id2 c hc hst
  case artifactNone =>
    intro id2 c hc hst
    by_cases he : id = id2
    · subst he
      rw [alookup_cons_self] at hc
      cases hc
      simp [mkPendingRec]
    · rw [alookup_cons_ne he] at hc
      exact inv.artifactNone id2 c hc hst
  case uploadLive =>
    intro id2 hmem
    rw [List.mem_insert_iff] at hmem
    rcases hmem with he | hmem
    · subst he
      left
      exact alookup_cons_self id2 Phase.spawned s.workers
    · by_cases he : id = id2
      · subst he
        left
        exact alookup_cons_self id Phase.spawned s.workers
      · rw [alookup_cons_ne he]
        exact inv.uploadLive id2 hmem

theorem inv_workerStart {s : SysState} {id : String} (inv : SysInv s)
    (hen : enabled s (Act.workerStart id)) :
    SysInv (applyAct s (Act.workerStart id)) := by
  have hw : alookup s.workers id = some Phase.spawned := hen
  rw [applyAct_workerStart]
  cases hreg : alookup s.registry id with
  | none =>
    rw [applyWorkerStart_absent hreg]
    constructor
    case regNodup => exact inv.regNodup
    case upNodup => exact inv.upNodup.erase _
    case regWorker =>
      intro id2 h2
      by_cases he : id2 = id
      · subst he
        rw [hreg] at h2
        simp at h2
      · rw [alookup_aupdate_ne he]
        exact inv.regWorker id2 h2
    case phasePending =>
      intro id2 c hc hst
      by_cases he : id2 = id
      · subst he
        rw [hreg] at hc
        cases hc
      · rw [alookup_aupdate_ne he]
        exact inv.phasePending id2 c hc hst
    case phaseProcessing =>
      intro id2 c hc hst
      by_cases he : id2 = id
      · subst he
        rw [hreg] at hc
        cases hc
      · rw [alookup_aupdate_ne he]
        exact inv.phaseProcessing id2 c hc hst
    case phaseTerminal =>
      intro id2 c hc hst
      by_cases he : id2 = id
      · subst he
        rw [hreg] at hc
        cases hc
      · rw [alookup_aupdate_ne he]
        exact inv.phaseTerminal id2 c hc hst
    case artifactSome =>
      intro id2 c hc hst
      exact inv.artifactSome id2 c hc hst
    case artifactNone =>
      intro id2 c hc hst
      exact inv.artifactNone id2 c hc hst
    case uploadLive =>
      intro id2 hmem
      by_cases he : id2 = id
      · subst he
        have h2 := (inv.upNodup.mem_erase_iff).mp hmem
        exact absurd rfl h2.1
      · have hmem2 : id2 ∈ s.uploads := List.mem_of_mem_erase hmem
        rw [alookup_aupdate_ne he]
        exact inv.uploadLive id2 hmem2
  | some c =>
    rw [applyWorkerStart_present hreg]
    constructor
    case regNodup => exact keysNodup_aupdate inv.regNodup _ _
    case upNodup => exact inv.upNodup
    case regWorker =>
      intro id2 h2
      by_cases he : id2 = id
      · subst he
        rw [alookup_aupdate_self, hw]
        rfl
      · rw [alookup_aupdate_ne he] at h2
        rw [alookup_aupdate_ne he]
        exact inv.regWorker id2 h2
    case phasePending =>
      intro id2 c2 hc2 hst
      by_cases he : id2 = id
      · subst he
        rw [alookup_aupdate_self, hreg] at hc2
        simp only [Option.map_some'] at hc2
        cases hc2
        simp [startedRec] at hst
      · rw [alookup_aupdate_ne he] at hc2
        rw [alookup_aupdate_ne he]
        exact inv.phasePending id2 c2 hc2 hst
    case phaseProcessing =>
      intro id2 c2 hc2 hst
      by_cases he : id2 = id
      · subst he
        rw [alookup_aupdate_self, hw]
        rfl
      · rw [alookup_aupdate_ne he] at hc2
        rw [alookup_aupdate_ne he]
        exact inv.phaseProcessing id2 c2 hc2 hst
    case phaseTerminal =>
      intro id2 c2 hc2 hst
      by_cases he : id2 = id
      · subst he
        rw [alookup_aupdate_self, hreg] at hc2
        simp only [Option.map_some'] at hc2
        cases hc2
        simp [startedRec] at hst
      · rw [alookup_aupdate_ne he] at hc2
        rw [alookup_aupdate_ne he]
        exact inv.phaseTerminal id2 c2 hc2 hst
    case artifactSome =>
      intro id2 c2 hc2 hst
      by_cases he : id2 = id
      · subst he
        rw [alookup_aupdate_self, hreg] at hc2
        simp only [Option.map_some'] at hc2
        cases hc2
        simp [startedRec] at hst
      · rw [alookup_aupdate_ne he] at hc2
        exact inv.artifactSome id2 c2 hc2 hst
    case artifactNone =>
      intro id2 c2 hc2 hst
      by_cases he : id2 = id
      · subst he
        rw [alookup_aupdate_self, hreg] at hc2
        simp only [Option.map_some'] at hc2
        cases hc2
        have hstat := status_of_spawned inv hreg hw
        have hfile := inv.artifactNone _ c hreg (by rw [hstat]; intro h2; cases h2)
        simp [startedRec, hfile]
      · rw [alookup_aupdate_ne he] at hc2
        exact inv.artifactNone id2 c2 hc2 hst
    case uploadLive =>
      intro id2 hmem
      by_cases he : id2 = id
      · subst he
        right
        rw [alookup_aupdate_self, hw]
        rfl
      · rw [alookup_aupdate_ne he]
        exact inv.uploadLive id2 hmem

theorem inv_workerFinish {s : SysState} {id : String} {o : WorkerOutcome}
    (inv : SysInv s) (hen : enabled s (Act.workerFinish id o)) :
    SysInv (applyAct s (Act.workerFinish id o)) := by
  have hw : alookup s.workers id = some Phase.running := hen
  rw [applyAct_workerFinish]
  cases hreg : alookup s.registry id with
  | none =>
    rw [applyWorkerFinish_absent hreg]
    constructor
    case regNodup => exact inv.regNodup
    case upNodup => exact inv.upNodup.erase _
    case regWorker =>
      intro id2 h2
      by_cases he : id2 = id
      · subst he
        rw [hreg] at h2
        simp at h2
      · rw [alookup_aupdate_ne he]
        exact inv.regWorker id2 h2
    case phasePending =>
      intro id2 c hc hst
      by_cases he : id2 = id
      · subst he
        rw [hreg] at hc
        cases hc
      · rw [alookup_aupdate_ne he]
        exact inv.phasePending id2 c hc hst
    case phaseProcessing =>
      intro id2 c hc hst
      by_cases he : id2 = id
      · subst he
        rw [hreg] at hc
        cases hc
      · rw [alookup_aupdate_ne he]
        exact inv.phaseProcessing id2 c hc hst
    case phaseTerminal =>
      intro id2 c hc hst
      by_cases he : id2 = id
      · subst he
        rw [hreg] at hc
        cases hc
      · rw [alookup_aupdate_ne he]
        exact inv.phaseTerminal id2 c hc hst
    case artifactSome =>
      intro id2 c hc hst
      exact inv.artifactSome id2 c hc hst
    case artifactNone =>
      intro id2 c hc hst
      exact inv.artifactNone id2 c hc hst
    case uploadLive =>
      intro id2 hmem
      by_cases he : id2 = id
      · subst he
        have h2 := (inv.upNodup.mem_erase_iff).mp hmem
        exact absurd rfl h2.1
      · have hmem2 : id2 ∈ s.uploads := List.mem_of_mem_erase hmem
        rw [alookup_aupdate_ne he]
        exact inv.uploadLive id2 hmem2
  | some c =>
    rw [applyWorkerFinish_present hreg]
    constructor
    case regNodup => exact keysNodup_aupdate inv.regNodup _ _
    case upNodup => exact inv.upNodup.erase _
    case regWorker =>
      intro id2 h2
      by_cases he : id2 = id
      · subst he
        rw [alookup_aupdate_self, hw]
        rfl
      · rw [alookup_aupdate_ne he] at h2
        rw [alookup_aupdate_ne he]
        exact inv.regWorker id2 h2
    case phasePending =>
      intro id2 c2 hc2 hst
      by_cases he : id2 = id
      · subst he
        rw [alookup_aupdate_self, hreg] at hc2
        simp only [Option.map_some'] at hc2
        cases hc2
        rcases finishedRec_status_terminal id2 o c with h1 | h1 <;>
          rw [h1] at hst <;> cases hst
      · rw [alookup_aupdate_ne he] at hc2
        rw [alookup_aupdate_ne he]
        exact inv.phasePending id2 c2 hc2 hst
    case phaseProcessing =>
      intro id2 c2 hc2 hst
      by_cases he : id2 = id
      · subst he
        rw [alookup_aupdate_self, hreg] at hc2
        simp only [Option.map_some'] at hc2
        cases hc2
        rcases finishedRec_status_terminal id2 o c with h1 | h1 <;>
          rw [h1] at hst <;> cases hst
      · rw [alookup_aupdate_ne he] at hc2
        rw [alookup_aupdate_ne he]
        exact inv.phaseProcessing id2 c2 hc2 hst
    case phaseTerminal =>
      intro id2 c2 hc2 hst
      by_cases he : id2 = id
      · subst he
        rw [alookup_aupdate_self, hw]
        rfl
      · rw [alookup_aupdate_ne he] at hc2
        rw [alookup_aupdate_ne he]
        exact inv.phaseTerminal id2 c2 hc2 hst
    case artifactSome =>
      intro id2 c2 hc2 hst
      by_cases he : id2 = id
      · subst he
        rw [alookup_aupdate_self, hreg] at hc2
        simp only [Option.map_some'] at hc2
        cases hc2
        exact finishedRec_completed_artifact hst
      · rw [alookup_aupdate_ne he] at hc2
        exact inv.artifactSome id2 c2 hc2 hst
    case artifactNone =>
      intro id2 c2 hc2 hst
      by_cases he : id2 = id
      · subst he
        have hstat := status_of_running inv hreg hw
        have hfile := inv.artifactNone _ c hreg (by rw [hstat]; intro h2; cases h2)
        rw [alookup_aupdate_self, hreg] at hc2
        simp only [Option.map_some'] at hc2
        cases hc2
        rw [finishedRec_not_completed_filename hst]
        exact hfile
      · rw [alookup_aupdate_ne he] at hc2
        exact inv.artifactNone id2 c2 hc2 hst
    case uploadLive =>
      intro id2 hmem
      by_cases he : id2 = id
      · subst he
        have h2 := (inv.upNodup.mem_erase_iff).mp hmem
        exact absurd rfl h2.1
      · have hmem2 : id2 ∈ s.uploads := List.mem_of_mem_erase hmem
        rw [alookup_aupdate_ne he]
        exact inv.uploadLive id2 hmem2

theorem inv_delete {s : SysState} {id : String} (inv : SysInv s) :
    SysInv (applyAct s (Act.deleteJob id)) := by
  cases hreg : alookup s.registry id with
  | none =>
    rw [applyAct_delete_absent hreg]
    exact inv
  | some c =>
    rw [applyAct_delete_present hreg]
    constructor
    case regNodup => exact keysNodup_aerase inv.regNodup _
    case upNodup => exact inv.upNodup
    case regWorker =>
      intro id2 h2
      by_cases he : id2 = id
      · subst he
        rw [alookup_aerase_self] at h2
        simp at h2
      · rw [alookup_aerase_ne he] at h2
        exact inv.regWorker id2 h2
    case phasePending =>
      intro id2 c2 hc2 hst
      by_cases he : id2 = id
      · subst he
        rw [alookup_aerase_self] at hc2
        cases hc2
      · rw [alookup_aerase_ne he] at hc2
        exact inv.phasePending id2 c2 hc2 hst
    case phaseProcessing =>
      intro id2 c2 hc2 hst
      by_cases he : id2 = id
      · subst he
        rw [alookup_aerase_self] at hc2
        cases hc2
      · rw [alookup_aerase_ne he] at hc2
        exact inv.phaseProcessing id2 c2 hc2 hst
    case phaseTerminal =>
      intro id2 c2 hc2 hst
      by_cases he : id2 = id
      · subst he
        rw [alookup_aerase_self] at hc2
        cases hc2
      · rw [alookup_aerase_ne he] at hc2
        exact inv.phaseTerminal id2 c2 hc2 hst
    case artifactSome =>
      intro id2 c2 hc2 hst
      by_cases he : id2 = id
      · subst he
        rw [alookup_aerase_self] at hc2
        cases hc2
      · rw [alookup_aerase_ne he] at hc2
        exact inv.artifactSome id2 c2 hc2 hst
    case artifactNone =>
      intro id2 c2 hc2 hst
      by_cases he : id2 = id
      · subst he
        rw [alookup_aerase_self] at hc2
        cases hc2
      · rw [alookup_aerase_ne he] at hc2
        exact inv.artifactNone id2 c2 hc2 hst
    case uploadLive =>
      intro id2 hmem
      exact inv.uploadLive id2 hmem

theorem inv_step {s : SysState} {a : Act} (inv : SysInv s) (hen : enabled s a) :
    SysInv (applyAct s a) := by
  cases a with
  | submit id fn => exact inv_submit inv hen
  | workerStart id => exact inv_workerStart inv hen
  | workerFinish id o => exact inv_workerFinish inv hen
  | deleteJob id => exact inv_delete inv

theorem inv_init : SysInv initState := by
  refine ⟨?_, ?_, ?_, ?_, ?_, ?_, ?_, ?_, ?_⟩ <;>
    simp [initState, keysNodup, alookup]

theorem run_inv : ∀ {s as s'}, Run s as s' → SysInv s → SysInv s' := by
  intro s as s' h
  induction h with
  | nil s => exact fun inv => inv
  | cons ha h ih => exact fun inv => ih (inv_step inv ha)

theorem reachable_inv {s : SysState} (h : Reachable s) : SysInv s := by
  obtain ⟨as, hr⟩ := h
  exact run_inv hr inv_init

/-! ## Accounting of input-file removals along a run -/

theorem doneScore_step {s : SysState} {a : Act} (hen : enabled s a) (id : String) :
    doneScore s id + (if removesInput s a id then 1 else 0) =
      doneScore (applyAct s a) id := by
  cases a with
  | submit i fn =>
    obtain ⟨hw, hext⟩ := hen
    rw [applyAct_submit hext]
    by_cases he : i = id
    · subst he
      simp [removesInput, doneScore, hw, alookup_cons_self]
    · simp [removesInput, doneScore, alookup_cons_ne he]
  | workerStart i =>
    have hw : alookup s.workers i = some Phase.spawned := hen
    rw [applyAct_workerStart]
    cases hreg : alookup s.registry i with
    | none =>
      rw [applyWorkerStart_absent hreg]
      by_cases he : i = id
      · subst he
        simp [removesInput, doneScore, hreg, hw, alookup_aupdate_self]
      · have hne : id ≠ i := fun h2 => he h2.symm
        simp [removesInput, doneScore, he, alookup_aupdate_ne hne]
    | some c =>
      rw [applyWorkerStart_present hreg]
      by_cases he : i = id
      · subst he
        simp [removesInput, doneScore, hreg, hw, alookup_aupdate_self]
      · have hne : id ≠ i := fun h2 => he h2.symm
        simp [removesInput, doneScore, he, alookup_aupdate_ne hne]
  | workerFinish i o =>
    have hw : alookup s.workers i = some Phase.running := hen
    rw [applyAct_workerFinish]
    cases hreg : alookup s.registry i with
    | none =>
      rw [applyWorkerFinish_absent hreg]
      by_cases he : i = id
      · subst he
        simp [removesInput, doneScore, hw, alookup_aupdate_self]
      · have hne : id ≠ i := fun h2 => he h2.symm
        simp [removesInput, doneScore, he, alookup_aupdate_ne hne]
    | some c =>
      rw [applyWorkerFinish_present hreg]
      by_cases he : i = id
      · subst he
        simp [removesInput, doneScore, hw, alookup_aupdate_self]
      · have hne : id ≠ i := fun h2 => he h2.symm
        simp [removesInput, doneScore, he, alookup_aupdate_ne hne]
  | deleteJob i =>
    cases hreg : alookup s.registry i with
    | none =>
      rw [applyAct_delete_absent hreg]
      simp [removesInput]
    | some c =>
      rw [applyAct_delete_present hreg]
      simp [removesInput, doneScore]

theorem removalCount_run : ∀ {s as s'}, Run s as s' → ∀ id : String,
    doneScore s id + removalCount s as id = doneScore s' id := by
  intro s as s' h
  induction h with
  | nil s => intro id; simp [removalCount]
  | cons ha h ih =>
    intro id
    have h1 := doneScore_step ha id
    have h2 := ih id
    simp only [removalCount]
    rw [← Nat.add_assoc, h1, h2]

/-! ## Facts about the artifact-locating scan -/

theorem pickLatest_mem (h : String × Nat) (t : List (String × Nat)) :
    pickLatest h t ∈ h :: t := by
  induction t generalizing h with
  | nil => simp [pickLatest]
  | cons f t ih =>
    have step : pickLatest h (f :: t) = pickLatest (if h.2 < f.2 then f else h) t := rfl
    rw [step]
    rcases List.mem_cons.mp (ih (if h.2 < f.2 then f else h)) with h1 | h1
    · rw [h1]
      by_cases hlt : h.2 < f.2
      · simp [hlt]
      · simp [hlt]
    · simp [List.mem_cons, h1]

theorem pickLatest_le (h : String × Nat) (t : List (String × Nat)) :
    ∀ g ∈ h :: t, g.2 ≤ (pickLatest h t).2 := by
  induction t generalizing h with
  | nil =>
    intro g hg
    rcases List.mem_cons.mp hg with h1 | h1
    · rw [h1]; exact Nat.le_refl _
    · cases h1
  | cons f t ih =>
    intro g hg
    have step : pickLatest h (f :: t) = pickLatest (if h.2 < f.2 then f else h) t := rfl
    rw [step]
    have hh : h.2 ≤ (if h.2 < f.2 then f else h).2 := by
      by_cases hlt : h.2 < f.2
      · simp [hlt]; exact Nat.le_of_lt hlt
      · simp [hlt]
    have hf : f.2 ≤ (if h.2 < f.2 then f else h).2 := by
      by_cases hlt : h.2 < f.2
      · simp [hlt]
      · simp [hlt]; exact Nat.le_of_not_lt hlt
    have htop : (if h.2 < f.2 then f else h).2 ≤ (pickLatest (if h.2 < f.2 then f else h) t).2 :=
      ih (if h.2 < f.2 then f else h) _ (List.mem_cons_self _ _)
    rcases List.mem_cons.mp hg with h1 | h1
    · rw [h1]; exact Nat.le_trans hh htop
    · rcases List.mem_cons.mp h1 with h2 | h2
      · rw [h2]; exact Nat.le_trans hf htop
      · exact ih (if h.2 < f.2 then f else h) g (List.mem_cons_of_mem _ h2)

theorem latestDocx_spec {files : List (String × Nat)} {f : String}
    (h : latestDocx files = some f) :
    strEndsWith f ".docx" = true ∧
    ∃ m, (f, m) ∈ files ∧
      ∀ g ∈ files, strEndsWith g.1 ".docx" = true → g.2 ≤ m := by
  unfold latestDocx at h
  cases hfil : files.filter (fun p => strEndsWith p.1 ".docx") with
  | nil => rw [hfil] at h; cases h
  | cons p t =>
    rw [hfil] at h
    have hp : some (pickLatest p t).1 = some f := h
    have hmem : pickLatest p t ∈ p :: t := pickLatest_mem p t
    rw [← hfil] at hmem
    have hmem2 := List.mem_filter.mp hmem
    constructor
    · cases hp
      exact hmem2.2
    · refine ⟨(pickLatest p t).2, ?_, ?_⟩
      · cases hp
        exact hmem2.1
      · intro g hg hgd
        have hgf : g ∈ files.filter (fun p => strEndsWith p.1 ".docx") :=
          List.mem_filter.mpr ⟨hg, hgd⟩
        rw [hfil] at hgf
        exact pickLatest_le p t g hgf

theorem wait_for_download_found {snaps : List (List (String × Nat))} {f : String}
    (h : wait_for_download snaps = some f) :
    strEndsWith f ".docx" = true ∧
    ∃ snap ∈ snaps, hasCrdownload snap = false ∧
      ∃ m, (f, m) ∈ snap ∧
        ∀ g ∈ snap, strEndsWith g.1 ".docx" = true → g.2 ≤ m := by
  induction snaps with
  | nil => cases h
  | cons snap rest ih =>
    unfold wait_for_download at h
    cases hscan : scanStep snap with
    | some f2 =>
      rw [hscan] at h
      cases h
      unfold scanStep at hscan
      cases hcr : hasCrdownload snap with
      | true => rw [hcr] at hscan; simp at hscan
      | false =>
        rw [hcr] at hscan
        simp only [Bool.false_eq_true, if_false] at hscan
        have hspec := latestDocx_spec hscan
        exact ⟨hspec.1, snap, List.mem_cons_self _ _, hcr, hspec.2⟩
    | none =>
      rw [hscan] at h
      have hspec := ih h
      obtain ⟨h1, snap2, hmem, hrest⟩ := hspec
      exact ⟨h1, snap2, List.mem_cons_of_mem _ hmem, hrest⟩

theorem wait_for_download_none {snaps : List (List (String × Nat))}
    (h : wait_for_download snaps = none) :
    ∀ snap ∈ snaps, scanStep snap = none := by
  induction snaps with
  | nil => intro snap hs; cases hs
  | cons snap rest ih =>
    unfold wait_for_download at h
    cases hscan : scanStep snap with
    | some f2 => rw [hscan] at h; cases h
    | none =>
      rw [hscan] at h
      intro snap2 hs
      rcases List.mem_cons.mp hs with h1 | h1
      · rw [h1]; exact hscan
      · exact ih h snap2 h1

/-! ## Claim theorems -/

theorem run3 : Run initState acts3 s3 :=
  Run.cons (by decide) (Run.cons (by decide) (Run.cons (by decide) (Run.nil _)))

/-- Claim C1, counterexample.  The claim says a transition attempt on a
`completed` or `error` job fails with `InvalidTransition` and leaves the
fields unchanged.  The code has no transition guard and no
`InvalidTransition` error at all (`ApiError` exhausts the raised errors):
re-running the worker body on the completed job `a` silently overwrites its
status with `error`, so the fields do not remain unchanged and nothing
fails. -/
theorem C1_counterexample :
    (alookup (process_conversion "a" (WorkerOutcome.returned none)
        completedState).registry "a").map JobRec.status = some Status.error ∧
    some Status.error ≠ some Status.completed := by
  constructor
  · decide
  · decide

/-- Claim C1, amended: the registry has no `InvalidTransition` guard — the
worker's status updates applied to a terminal job succeed and overwrite it —
but in every reachable state of the running service no enabled event ever
mutates a terminal job's record: each event either preserves the record
exactly or (for a deletion of that very id) removes it. -/
theorem C1_terminal_record_preserved (s : SysState) (hs : Reachable s)
    (id : String) (c : JobRec) (hc : alookup s.registry id = some c)
    (hterm : c.status = Status.completed ∨ c.status = Status.error)
    (a : Act) (ha : enabled s a) :
    alookup (applyAct s a).registry id = some c ∨
    (a = Act.deleteJob id ∧ alookup (applyAct s a).registry id = none) := by
  have inv := reachable_inv hs
  have hdone := inv.phaseTerminal id c hc hterm
  cases a with
  | submit i fn =>
    obtain ⟨hw, hext⟩ := ha
    rw [applyAct_submit hext]
    left
    have hne : i ≠ id := by
      intro he
      subst he
      rw [hdone] at hw
      cases hw
    rw [alookup_cons_ne hne]
    exact hc
  | workerStart i =>
    have hw : alookup s.workers i = some Phase.spawned := ha
    have hne : i ≠ id := by
      intro he
      subst he
      rw [hdone] at hw
      cases hw
    have hne2 : id ≠ i := fun h2 => hne h2.symm
    left
    rw [applyAct_workerStart]
    cases hreg : alookup s.registry i with
    | none =>
      rw [applyWorkerStart_absent hreg]
      exact hc
    | some c2 =>
      rw [applyWorkerStart_present hreg]
      rw [alookup_aupdate_ne hne2]
      exact hc
  | workerFinish i o =>
    have hw : alookup s.workers i = some Phase.running := ha
    have hne : i ≠ id := by
      intro he
      subst he
      rw [hdone] at hw
      cases hw
    have hne2 : id ≠ i := fun h2 => hne h2.symm
    left
    rw [applyAct_workerFinish]
    cases hreg : alookup s.registry i with
    | none =>
      rw [applyWorkerFinish_absent hreg]
      exact hc
    | some c2 =>
      rw [applyWorkerFinish_present hreg]
      rw [alookup_aupdate_ne hne2]
      exact hc
  | deleteJob i =>
    by_cases he : i = id
    · subst he
      right
      refine ⟨rfl, ?_⟩
      have hsome : (alookup s.registry i).isSome = true := ha
      cases hreg : alookup s.registry i with
      | none =>
        rw [hreg] at hsome
        cases hsome
      | some c2 =>
        rw [applyAct_delete_present hreg]
        exact alookup_aerase_self s.registry i
    · left
      have hne2 : id ≠ i := fun h2 => he h2.symm
      cases hreg : alookup s.registry i with
      | none =>
        rw [applyAct_delete_absent hreg]
        exact hc
      | some c2 =>
        rw [applyAct_delete_present hreg]
        rw [alookup_aerase_ne hne2]
        exact hc

theorem C1_terminal_record_preserved_witness :
    alookup (applyAct s3 (Act.submit "b" "b.pdf")).registry "a" = some recA ∨
    (Act.submit "b" "b.pdf" = Act.deleteJob "a" ∧
      alookup (applyAct s3 (Act.submit "b" "b.pdf")).registry "a" = none) :=
  C1_terminal_record_preserved s3 ⟨acts3, run3⟩ "a" recA (by decide)
    (Or.inl (by decide)) (Act.submit "b" "b.pdf") (by decide)

/-- Claim C2: in every reachable state, a job record carries a non-empty
`filename` exactly when its status is `completed`; any non-completed job
(pending, processing or error) has no artifact recorded at all. -/
theorem C2_artifact_iff_completed (s : SysState) (hs : Reachable s)
    (id : String) (c : JobRec) (hc : alookup s.registry id = some c) :
    ((∃ f, c.filename = some f ∧ f ≠ "") ↔ c.status = Status.completed) ∧
    (c.status ≠ Status.completed → c.filename = none) := by
  have inv := reachable_inv hs
  refine ⟨⟨?_, ?_⟩, ?_⟩
  · intro hf
    by_contra hne
    rw [inv.artifactNone id c hc hne] at hf
    obtain ⟨f, hf1, _⟩ := hf
    cases hf1
  · intro hcomp
    exact inv.artifactSome id c hc hcomp
  · intro hne
    exact inv.artifactNone id c hc hne

theorem C2_artifact_iff_completed_witness :
    ((∃ f, recA.filename = some f ∧ f ≠ "") ↔ recA.status = Status.completed) ∧
    (recA.status ≠ Status.completed → recA.filename = none) :=
  C2_artifact_iff_completed s3 ⟨acts3, run3⟩ "a" recA (by decide)

/-- Claim C3: along any run of the service, once a job's record is terminal
(`completed` or `error`) its input file is gone from the upload area, and
the worker's input-file removal (the `finally` block of
`process_conversion`) ran exactly once for that job. -/
theorem C3_cleanup_guarantee (as : List Act) (s : SysState)
    (hrun : Run initState as s) (id : String) (c : JobRec)
    (hc : alookup s.registry id = some c)
    (hterm : c.status = Status.completed ∨ c.status = Status.error) :
    id ∉ s.uploads ∧ removalCount initState as id = 1 := by
  have inv : SysInv s := run_inv hrun inv_init
  have hdone := inv.phaseTerminal id c hc hterm
  constructor
  · intro hmem
    rcases inv.uploadLive id hmem with h1 | h1 <;> rw [hdone] at h1 <;> cases h1
  · have hcount := removalCount_run hrun id
    have h0 : doneScore initState id = 0 := by simp [doneScore, initState, alookup]
    have h1 : doneScore s id = 1 := by simp [doneScore, hdone]
    rw [h0, h1] at hcount
    omega

theorem C3_cleanup_guarantee_witness :
    "a" ∉ s3.uploads ∧ removalCount initState acts3 "a" = 1 :=
  C3_cleanup_guarantee acts3 s3 run3 "a" recA (by decide) (Or.inl (by decide))

/-- Claim C4, counterexample.  The claim says the artifact-locating
operation returns only files whose modification time is at or after a given
reference timestamp.  `_wait_for_download` takes no reference timestamp and
never compares modification times against one: with reference 100, a
pre-existing `.docx` of mtime 0 is returned. -/
theorem C4_counterexample : ¬ locateOnlyAfter 100 := by
  intro h
  have h2 := h [[("old.docx", 0)]] "old.docx" (by decide)
    [("old.docx", 0)] (by decide) 0 (by decide)
  exact absurd h2 (by decide)

/-- Claim C4, amended: the scan returns only filenames with the `.docx`
extension; the returned file comes from the first polled listing that has no
in-progress `.crdownload` marker and at least one `.docx`, and it has the
maximal modification time among that listing's `.docx` files.  No reference
timestamp is consulted, so pre-existing files can be returned.  If every
polled listing within the timeout is still downloading or has no `.docx`,
there is no result. -/
theorem C4_artifact_discovery_amended (snaps : List (List (String × Nat))) :
    (∀ f, wait_for_download snaps = some f →
      strEndsWith f ".docx" = true ∧
      ∃ snap ∈ snaps, hasCrdownload snap = false ∧
        ∃ m, (f, m) ∈ snap ∧
          ∀ g ∈ snap, strEndsWith g.1 ".docx" = true → g.2 ≤ m) ∧
    (wait_for_download snaps = none → ∀ snap ∈ snaps, scanStep snap = none) :=
  ⟨fun _ h => wait_for_download_found h, fun h => wait_for_download_none h⟩

theorem C4_artifact_discovery_amended_witness :
    (strEndsWith "b.docx" ".docx" = true ∧
      ∃ snap ∈ [[("a.docx", 5), ("b.docx", 7)]], hasCrdownload snap = false ∧
        ∃ m, ("b.docx", m) ∈ snap ∧
          ∀ g ∈ snap, strEndsWith g.1 ".docx" = true → g.2 ≤ m) ∧
    (∀ snap ∈ [[("x.crdownload", 0)]], scanStep snap = none) :=
  ⟨(C4_artifact_discovery_amended [[("a.docx", 5), ("b.docx", 7)]]).1
      "b.docx" (by decide),
   (C4_artifact_discovery_amended [[("x.crdownload", 0)]]).2 (by decide)⟩

/-- Claim C5: for a job present in the registry, retrieval fails with a 400
client error whenever the status is not `completed`; it fails with a 404
when the job is `completed` but its artifact is not retrievable (no truthy
`filename` recorded, or the file missing from the output area); and it
succeeds exactly when the job is `completed` and the artifact is present. -/
theorem C5_download_gating (s : SysState) (id : String) (conv : JobRec)
    (hc : alookup s.registry id = some conv) :
    (conv.status ≠ Status.completed →
      ∃ d, download_file id s = Except.error (ApiError.badRequest d)) ∧
    (conv.status = Status.completed → ¬ artifactPresent conv s →
      ∃ d, download_file id s = Except.error (ApiError.notFound d)) ∧
    ((∃ r, download_file id s = Except.ok r) ↔
      (conv.status = Status.completed ∧ artifactPresent conv s)) := by
  refine ⟨?_, ?_, ?_, ?_⟩
  · intro hne
    simp only [download_file, hc]
    rw [if_neg hne]
    exact ⟨_, rfl⟩
  · intro hst hnp
    simp only [download_file, hc]
    rw [if_pos hst]
    cases hf : conv.filename with
    | none => exact ⟨_, rfl⟩
    | some f =>
      dsimp only
      by_cases hf0 : f = ""
      · rw [if_pos hf0]
        exact ⟨_, rfl⟩
      · rw [if_neg hf0]
        have hnm : f ∉ s.outputs := fun hm => hnp ⟨f, hf, hf0, hm⟩
        rw [if_neg hnm]
        exact ⟨_, rfl⟩
  · rintro ⟨r, hr⟩
    simp only [download_file, hc] at hr
    by_cases hst : conv.status = Status.completed
    · refine ⟨hst, ?_⟩
      rw [if_pos hst] at hr
      cases hf : conv.filename with
      | none =>
        rw [hf] at hr
        cases hr
      | some f =>
        rw [hf] at hr
        dsimp only at hr
        by_cases hf0 : f = ""
        · rw [if_pos hf0] at hr
          cases hr
        · rw [if_neg hf0] at hr
          by_cases hmem : f ∈ s.outputs
          · exact ⟨f, hf, hf0, hmem⟩
          · rw [if_neg hmem] at hr
            cases hr
    · rw [if_neg hst] at hr
      cases hr
  · rintro ⟨hst, f, hf, hf0, hmem⟩
    simp only [download_file, hc]
    rw [if_pos hst, hf]
    dsimp only
    rw [if_neg hf0, if_pos hmem]
    exact ⟨_, rfl⟩

theorem C5_download_gating_witness :
    (∃ d, download_file "p" stC5 = Except.error (ApiError.badRequest d)) ∧
    (∃ d, download_file "c" stC5 = Except.error (ApiError.notFound d)) :=
  ⟨(C5_download_gating stC5 "p" recP (by decide)).1 (by decide),
   (C5_download_gating stC5 "c" recC (by decide)).2.1 (by decide)
     (by rintro ⟨f, hf, hf0, hm⟩; simp [stC5] at hm)⟩

/-- Claim C6, counterexample.  The claim says any failure inside the worker
yields a non-empty `message`.  The exception arm stores `str(e)` verbatim;
for an exception whose text is empty (Python `raise Exception()`), the job
ends in `error` with the empty message. -/
theorem C6_counterexample :
    (alookup (process_conversion "a" (WorkerOutcome.raised "") stPending).registry
        "a").map (fun c => (c.status, c.message)) =
      some (Status.error, some "") := by
  decide

/-- Claim C6, amended: failures inside the worker are never propagated (the
worker's effect is a total state update and `convert_pdf` has already
returned the pending response), and the job's status becomes `error` with
`message` equal to the fixed non-empty text "Falha na conversão" when the
engine returned no artifact (failure, timeout or falsy filename), or to the
exception's own text — which can be empty — when an exception was raised. -/
theorem C6_failure_recorded_amended (s : SysState) (id : String) (c : JobRec)
    (o : WorkerOutcome) (hc : alookup s.registry id = some c)
    (hfail : isFailure o = true) :
    ∃ c2, alookup (process_conversion id o s).registry id = some c2 ∧
      c2.status = Status.error ∧ c2.message = some (failureMessage o) := by
  unfold process_conversion
  rw [applyWorkerStart_present hc]
  have hc1 : alookup (aupdate s.registry id startedRec) id = some (startedRec c) := by
    rw [alookup_aupdate_self, hc]
    rfl
  rw [applyWorkerFinish_present hc1]
  refine ⟨finishedRec id o (startedRec c), ?_, ?_, ?_⟩
  · rw [alookup_aupdate_self, hc1]
    rfl
  · rcases o with r | m
    · rcases r with _ | f
      · rfl
      · have hf0 : f = "" := by simpa [isFailure] using hfail
        simp [finishedRec, hf0]
    · rfl
  · rcases o with r | m
    · rcases r with _ | f
      · rfl
      · have hf0 : f = "" := by simpa [isFailure] using hfail
        simp [finishedRec, failureMessage, hf0]
    · rfl

theorem C6_failure_recorded_amended_witness :
    ∃ c2, alookup (process_conversion "a" (WorkerOutcome.raised "boom")
        stPending).registry "a" = some c2 ∧
      c2.status = Status.error ∧
      c2.message = some (failureMessage (WorkerOutcome.raised "boom")) :=
  C6_failure_recorded_amended stPending "a" (mkPendingRec "a" "a.pdf")
    (WorkerOutcome.raised "boom") (by decide) (by decide)

/-- Claim C7, counterexample.  The claim says creating a job with an id
already in the registry fails with `DuplicateID` and leaves the existing
record unchanged.  `convert_pdf` performs no duplicate check (and no
`DuplicateID` error exists in the code): submitting with the already-present
id `a` succeeds and the stored record is replaced by the fresh pending
record, which differs from the previous completed one. -/
theorem C7_counterexample :
    (convert_pdf "b.pdf" "a" completedState).toOption.map
        (fun r => alookup r.2.registry "a") =
      some (some (mkPendingRec "a" "b.pdf")) ∧
    mkPendingRec "a" "b.pdf" ≠ recA := by
  constructor
  · decide
  · decide

/-- Claim C7, amended: job creation performs no duplicate-id check — with a
valid extension it always succeeds and afterwards the id maps to the fresh
pending record, silently overwriting any previous record with that id.
Uniqueness rests solely on upstream uuid generation; under it (fresh ids in
every reachable state) the registry's keys are pairwise distinct. -/
theorem C7_create_overwrites_amended :
    (∀ (s : SysState) (id fn : String), strEndsWith (lowerStr fn) ".pdf" = true →
      ∃ s2, convert_pdf fn id s = Except.ok (pendingResponse id, s2) ∧
        alookup s2.registry id = some (mkPendingRec id fn)) ∧
    (∀ s : SysState, Reachable s → keysNodup s.registry) := by
  constructor
  · intro s id fn hext
    refine ⟨{ s with
        registry := (id, mkPendingRec id fn) :: s.registry,
        uploads := s.uploads.insert id,
        workers := (id, Phase.spawned) :: s.workers }, ?_, ?_⟩
    · simp [convert_pdf, hext]
    · exact alookup_cons_self id (mkPendingRec id fn) s.registry
  · intro s hs
    exact (reachable_inv hs).regNodup

theorem C7_create_overwrites_amended_witness :
    (∃ s2, convert_pdf "b.pdf" "a" completedState =
        Except.ok (pendingResponse "a", s2) ∧
      alookup s2.registry "a" = some (mkPendingRec "a" "b.pdf")) ∧
    keysNodup s3.registry :=
  ⟨C7_create_overwrites_amended.1 completedState "a" "b.pdf" (by decide),
   C7_create_overwrites_amended.2 s3 ⟨acts3, run3⟩⟩

/-- Claim C8: deleting an id present in the registry succeeds, removes the
record (subsequent status and download queries 404), and removes the
recorded truthy artifact filename from the output area; deleting an unknown
id fails with a 404. -/
theorem C8_delete_contract (s : SysState) (id : String)
    (houts : s.outputs.Nodup) :
    (alookup s.registry id = none →
      delete_conversion id s =
        Except.error (ApiError.notFound "Conversão não encontrada")) ∧
    (∀ conv, alookup s.registry id = some conv →
      ∃ s2, delete_conversion id s = Except.ok ("Conversão removida", s2) ∧
        alookup s2.registry id = none ∧
        get_status id s2 =
          Except.error (ApiError.notFound "Conversão não encontrada") ∧
        download_file id s2 =
          Except.error (ApiError.notFound "Conversão não encontrada") ∧
        (∀ f, conv.filename = some f → f ≠ "" → f ∉ s2.outputs)) := by
  constructor
  · intro h
    simp [delete_conversion, h]
  · intro conv hc
    refine ⟨{ s with registry := aerase s.registry id,
                     outputs := removeArtifact conv s.outputs }, ?_, ?_, ?_, ?_, ?_⟩
    · simp [delete_conversion, hc]
    · exact alookup_aerase_self s.registry id
    · simp [get_status, alookup_aerase_self]
    · simp [download_file, alookup_aerase_self]
    · intro f hf hf0
      simp only [removeArtifact, hf, if_neg hf0]
      intro hm
      exact ((houts.mem_erase_iff).mp hm).1 rfl

theorem C8_delete_contract_witness :
    ∃ s2, delete_conversion "a" completedState =
        Except.ok ("Conversão removida", s2) ∧
      alookup s2.registry "a" = none ∧
      get_status "a" s2 =
        Except.error (ApiError.notFound "Conversão não encontrada") ∧
      download_file "a" s2 =
        Except.error (ApiError.notFound "Conversão não encontrada") ∧
      (∀ f, recA.filename = some f → f ≠ "" → f ∉ s2.outputs) :=
  (C8_delete_contract completedState "a" (by decide)).2 recA (by decide)

/-- Claim C9: a submission whose declared filename does not carry the `.pdf`
extension (checked on the lowercased name, as the code does) is rejected
with the 400 validation error; no success is possible, so no job record is
created and no file is written — the rejection precedes both effects in the
source. -/
theorem C9_submission_validation (fn id : String) (s : SysState)
    (h : strEndsWith (lowerStr fn) ".pdf" = false) :
    convert_pdf fn id s =
      Except.error (ApiError.badRequest "O arquivo deve ser um PDF") ∧
    (∀ cs s2, convert_pdf fn id s ≠ Except.ok (cs, s2)) := by
  have h1 : convert_pdf fn id s =
      Except.error (ApiError.badRequest "O arquivo deve ser um PDF") := by
    simp [convert_pdf, h]
  refine ⟨h1, ?_⟩
  intro cs s2 heq
  rw [h1] at heq
  cases heq

theorem C9_submission_validation_witness :
    convert_pdf "report.txt" "j1" initState =
      Except.error (ApiError.badRequest "O arquivo deve ser um PDF") ∧
    (∀ cs s2, convert_pdf "report.txt" "j1" initState ≠ Except.ok (cs, s2)) :=
  C9_submission_validation "report.txt" "j1" initState (by decide)

/-- Claim C10: the extension check lowercases the filename first, so any
casing of `.pdf` is accepted: the submission succeeds, the upload is
written, and a `pending` job record is created with the declared name kept
in `original_filename` and no artifact recorded. -/
theorem C10_case_insensitive_accept (fn id : String) (s : SysState)
    (h : strEndsWith (lowerStr fn) ".pdf" = true) :
    ∃ s2, convert_pdf fn id s = Except.ok (pendingResponse id, s2) ∧
      alookup s2.registry id = some (mkPendingRec id fn) ∧
      (mkPendingRec id fn).status = Status.pending ∧
      (mkPendingRec id fn).original_filename = fn ∧
      (mkPendingRec id fn).filename = none ∧
      id ∈ s2.uploads := by
  refine ⟨{ s with
      registry := (id, mkPendingRec id fn) :: s.registry,
      uploads := s.uploads.insert id,
      workers := (id, Phase.spawned) :: s.workers }, ?_, ?_, rfl, rfl, rfl, ?_⟩
  · simp [convert_pdf, h]
  · exact alookup_cons_self id (mkPendingRec id fn) s.registry
  · exact List.mem_insert_self id s.uploads

theorem C10_case_insensitive_accept_witness :
    ∃ s2, convert_pdf "REPORT.PDF" "j2" initState =
        Except.ok (pendingResponse "j2", s2) ∧
      alookup s2.registry "j2" = some (mkPendingRec "j2" "REPORT.PDF") ∧
      (mkPendingRec "j2" "REPORT.PDF").status = Status.pending ∧
      (mkPendingRec "j2" "REPORT.PDF").original_filename = "REPORT.PDF" ∧
      (mkPendingRec "j2" "REPORT.PDF").filename = none ∧
      "j2" ∈ s2.uploads :=
  C10_case_insensitive_accept "REPORT.PDF" "j2" initState (by decide)
